import Mathlib

/-!
# Verification of the Triplit collection query engine (`collection-query.ts`)

A shallow embedding, in Lean 4, of the parts of
`src/packages/db/src/collection-query.ts` that the examined claims are
about: the index selector (`findCandidateFilter`, `getFilterSetForQuery`,
`getOrderSetForQuery`, `getCandidateEntityIds`), the filter evaluator
(`ApplyFilters`), the after-cursor filter (`FilterAfterCursor`), the
sorter (`querySorter`, `sortEntities`), the delta engine
(`fetchDeltaTriples` state-vector derivation), the sub-query loader
(`loadSubquery` stack discipline), relation-variable loading
(`loadRelationshipsIntoContextFromVariable`), root-permutation operator
reversal (`reverseRelationFilter`), and the subscription coordinator's
incremental write handler (`subscribeResultsAndTriples`).

Machine values (JS numbers used as ticks, encoded order-key values) are
modelled as `Int`; entity/attribute identifiers and operators as
`String`.  Helpers that live in files outside the examined sources (e.g.
`query/filters.js`, `db-helpers.js`, `query.js`) are modelled from the
specification and carry a doc comment saying so.
-/

namespace Triplit

/-- Hybrid logical timestamp `(tick, client_id)` (`timestamp.ts`; spec §3).
Ticks are JS numbers, modelled as `Int`. -/
structure Timestamp where
  tick : Int
  clientId : String
deriving DecidableEq, Repr

/-- Modelled from the spec: `timestampCompare` (`timestamp.ts`, not under the
examined sources) — lexicographic compare, tick first, client id as
tiebreaker (spec §3). -/
def timestampCompare (a b : Timestamp) : Int :=
  if a.tick < b.tick then -1
  else if b.tick < a.tick then 1
  else if a.clientId < b.clientId then -1
  else if b.clientId < a.clientId then 1
  else 0

/-- A query value appearing in filter statements and triples.  Dates and
arrays are out of scope for the examined claims. -/
inductive QVal where
  | int (n : Int)
  | str (s : String)
  | bool (b : Bool)
  | null
deriving DecidableEq, Repr

/-- A triple row `(entity_id, attribute_path, value, timestamp)`
(`triple-store-utils.ts`; spec §3).  The source field `attribute` is
called `attr` here because `attribute` is a Lean keyword. -/
structure TripleRow where
  id : String
  attr : List String
  value : QVal
  timestamp : Timestamp
deriving DecidableEq, Repr

/-- Where-clause node (`query/types`): statement, boolean literal,
subquery-exists, and/or group, exists-relation (spec §3 "Query"). -/
inductive WhereFilter where
  | stmt (path : String) (op : String) (value : QVal)
  | boolFilter (b : Bool)
  | subQuery
  | group (isOr : Bool) (filters : List WhereFilter)
  | existsRel

/-- `isFilterStatement`.  A variable-valued statement is just a
statement whose value is a `$`-prefixed string, as in the source. -/
def WhereFilter.isStatement : WhereFilter → Bool
  | .stmt _ _ _ => true
  | _ => false

/-- Relation cardinality (spec §3). -/
inductive Cardinality where
  | one
  | many
deriving DecidableEq, Repr

/-- Schema node kinds relevant to the selector and the variable loader:
scalars, sets, records and `query` (relation) types. -/
inductive SAttrType where
  | scalarT
  | setT
  | recordT
  | relationT (card : Cardinality) (target : String)
deriving DecidableEq, Repr

/-- A schema: collection name → attribute name → declared type. -/
def SchemaModel := String → String → Option SAttrType

/-- Modelled from the spec: `getAttributeFromSchema` (`schema/schema.js`,
not under the examined sources) — walks an attribute path, descending
through relation (`query`) types into their target collection (spec
§4.1/§4.5).  Record traversal is out of scope. -/
def getAttributeFromSchemaModel (s : SchemaModel) (col : String) :
    List String → Option SAttrType
  | [] => none
  | [a] => s col a
  | a :: rest =>
    match s col a with
    | some (.relationT _ t) => getAttributeFromSchemaModel s t rest
    | _ => none

/-- Modelled from the spec: `appendCollectionToId` (`db-helpers.js`, not
under the examined sources) — `entity_id` is `"<collection>#<external_id>"`
(spec §3). -/
def appendCollectionToId (collection id : String) : String :=
  collection ++ "#" ++ id

/-- Split at the first occurrence of a separator character. -/
def splitIdPartsAux : List Char → List Char → String × String
  | [], acc => (String.mk acc.reverse, "")
  | c :: cs, acc =>
    if c = '#' then (String.mk acc.reverse, String.mk cs)
    else splitIdPartsAux cs (c :: acc)

/-- Modelled from the spec: `splitIdParts` (`db-helpers.js`, not under the
examined sources) — splits a store id `"<collection>#<external_id>"` back
into its components (spec §3). -/
def splitIdParts (id : String) : String × String :=
  splitIdPartsAux id.data []

/-- `EQUALITY_OPS` from the source. -/
def EQUALITY_OPS : List String := ["="]

/-- `GT_OPS` from the source. -/
def GT_OPS : List String := [">", ">="]

/-- `LT_OPS` from the source. -/
def LT_OPS : List String := ["<", "<="]

/-- `RANGE_OPS` from the source. -/
def RANGE_OPS : List String := GT_OPS ++ LT_OPS

/-- Splits a dotted attribute path, as the source's `path.split('.')`
does.  Implemented by structural recursion on the characters so the
kernel can evaluate it. -/
def splitPathAux : List Char → List Char → List (List Char)
  | [], acc => [acc.reverse]
  | c :: cs, acc =>
    if c = '.' then acc.reverse :: splitPathAux cs []
    else splitPathAux cs (c :: acc)

/-- `path.split('.')` from the source. -/
def splitPath (p : String) : List String :=
  (splitPathAux p.data []).map String.mk

/-- A collection query (`CollectionQuery` in `query/types`; spec §3):
`where` is called `whereClauses` because `where` is a Lean keyword; an
order entry is `(attribute path, isAscending)`; `after` is
`((cursor value, cursor entity id), inclusive)` with the cursor value
already encoded (`encodeValue` images are modelled as `Int`). -/
structure Query where
  collectionName : String
  whereClauses : List WhereFilter
  order : List (String × Bool)
  after : Option ((QVal × String) × Bool)
  limit : Option Nat
  includeAliases : List String

/-- Range constraint parameters handed to `findValuesInRange`
(`RangeContraints` in `triple-store-utils.ts`): a direction
(`some true` = ASC), value bounds used by range scans, and cursor bounds
used by order scans. -/
structure RangeParams where
  direction : Option Bool
  greaterThan : Option QVal
  greaterThanOrEqual : Option QVal
  lessThan : Option QVal
  lessThanOrEqual : Option QVal
  greaterThanCursor : Option (QVal × String)
  greaterThanOrEqualCursor : Option (QVal × String)
  lessThanCursor : Option (QVal × String)
  lessThanOrEqualCursor : Option (QVal × String)
deriving DecidableEq, Repr

/-- Renders a query value as a string, as JS string coercion does when a
value is spliced into an index key or an entity id. -/
def qvalToIdString : QVal → String
  | .str s => s
  | .int n => toString n
  | .bool b => toString b
  | .null => "null"

/-- The triple-store index API consumed by the selector (spec §6.1),
restricted to the two lookups the candidate paths use.  An index scan
may return several triple versions per entity (spec §4.2). -/
structure TxModel where
  findByAVE : List String → Option QVal → List TripleRow
  findValuesInRange : List String → RangeParams → List TripleRow

/-- `getIdFilterFromQuery` (collection-query.ts lines 109-123): the first
equality statement on `id`, turned into a store id. -/
def getIdFilterFromQuery (q : Query) : Option String :=
  let idEqualityFilters := q.whereClauses.filter fun f =>
    match f with
    | .stmt p o _ => p == "id" && o == "="
    | _ => false
  match idEqualityFilters with
  | .stmt _ _ v :: _ => some (appendCollectionToId q.collectionName (qvalToIdString v))
  | _ => none

/-- The per-fetch fulfillment tracker (`QueryFulfillmentTracker`,
collection-query.ts lines 125-129). -/
structure QueryFulfillmentTracker where
  whereF : List Bool
  orderF : List Bool
  afterF : Bool
deriving DecidableEq, Repr

/-- The access-path kind chosen by `findCandidateFilter`. -/
inductive CandidateKind where
  | equality
  | range
deriving DecidableEq, Repr

/-- The candidate filter chosen by `findCandidateFilter`: its index in
`where`, its kind, the (filtered) schema type of its path, and the
statement's components. -/
structure CandidateFilter where
  idx : Nat
  kind : CandidateKind
  dataType : Option SAttrType
  path : String
  op : String
  value : QVal
deriving Repr

/-- `getCandidateDataTypeFromPath` (inside `findCandidateFilter`,
collection-query.ts lines 354-369): `undefined` without a schema or for
`query`/`record` types. -/
def candidateDataTypeFromPath (schema : Option SchemaModel) (col path : String) :
    Option SAttrType :=
  match schema with
  | none => none
  | some s =>
    match getAttributeFromSchemaModel s col (splitPath path) with
    | none => none
    | some (.relationT _ _) => none
    | some .recordT => none
    | some t => some t

/-- Loop body of `findCandidateFilter` (collection-query.ts lines
371-394): scan `where` in order; the first statement whose operator is
`=` gives an equality candidate, the first whose operator is a range op
gives a range candidate — whichever statement comes first wins. -/
def findCandidateFilterAux (schema : Option SchemaModel) (col : String) :
    List WhereFilter → Nat → Option CandidateFilter
  | [], _ => none
  | f :: rest, i =>
    match f with
    | .stmt path op v =>
      if EQUALITY_OPS.contains op then
        some ⟨i, .equality, candidateDataTypeFromPath schema col path, path, op, v⟩
      else if RANGE_OPS.contains op then
        some ⟨i, .range, candidateDataTypeFromPath schema col path, path, op, v⟩
      else findCandidateFilterAux schema col rest (i + 1)
    | _ => findCandidateFilterAux schema col rest (i + 1)

/-- `findCandidateFilter` (collection-query.ts lines 347-396). -/
def findCandidateFilter (schema : Option SchemaModel) (q : Query) :
    Option CandidateFilter :=
  findCandidateFilterAux schema q.collectionName q.whereClauses 0

/-- Loop body of `findRangeFilter` (collection-query.ts lines 324-345):
scan `where` after position `after` for a statement on `path` whose
operator is in `GT_OPS` (`wantGt = true`) or `LT_OPS`. -/
def findRangeFilterFrom (path : String) (wantGt : Bool) :
    List WhereFilter → Nat → Option Nat
  | [], _ => none
  | f :: rest, i =>
    match f with
    | .stmt p op _ =>
      if p == path && (if wantGt then GT_OPS.contains op else LT_OPS.contains op) then
        some i
      else findRangeFilterFrom path wantGt rest (i + 1)
    | _ => findRangeFilterFrom path wantGt rest (i + 1)

/-- `findRangeFilter` (collection-query.ts lines 324-345). -/
def findRangeFilter (q : Query) (path : String) (afterIdx : Nat) (wantGt : Bool) :
    Option Nat :=
  findRangeFilterFrom path wantGt (q.whereClauses.drop (afterIdx + 1)) (afterIdx + 1)

/-- `safeFilterRangeConstraint` (collection-query.ts lines 298-304);
dates and arrays are out of scope, so it is the identity here. -/
def safeFilterRangeConstraint (v : QVal) : QVal := v

/-- A plain filter statement `(path, op, value)`. -/
abbrev Statement := String × String × QVal

/-- `WhereFilter.asStatement`: the components of a statement node. -/
def WhereFilter.asStatement : WhereFilter → Option Statement
  | .stmt p o v => some (p, o, v)
  | _ => none

/-- The statement at index `i` of the where list. -/
def statementAt (q : Query) (i : Nat) : Option Statement :=
  (q.whereClauses.get? i).bind WhereFilter.asStatement

/-- `performRangeScan` (collection-query.ts lines 260-295): build value
bounds from the gt-side and lt-side filters and scan the attribute
range index. -/
def performRangeScan (tx : TxModel) (q : Query) (filter : Statement)
    (rangePair : Option Statement) : List TripleRow :=
  let attrP := splitPath filter.1
  let gtFilter := if GT_OPS.contains filter.2.1 then some filter else rangePair
  let ltFilter := if LT_OPS.contains filter.2.1 then some filter else rangePair
  let boundOf := fun (f : Option Statement) (o : String) =>
    match f with
    | some (_, op, v) => if op == o then some (safeFilterRangeConstraint v) else none
    | none => none
  let rangeParams : RangeParams :=
    ⟨none, boundOf gtFilter ">", boundOf gtFilter ">=",
      boundOf ltFilter "<", boundOf ltFilter "<=", none, none, none, none⟩
  tx.findValuesInRange (q.collectionName :: attrP) rangeParams

/-- `performValueEqualityScan` (collection-query.ts lines 398-408). -/
def performValueEqualityScan (tx : TxModel) (q : Query) (filter : Statement) :
    List TripleRow :=
  tx.findByAVE (q.collectionName :: splitPath filter.1) (some filter.2.2)

/-- `performSetEqualityScan` (collection-query.ts lines 410-419): the
member value becomes the last attribute-key segment, with presence value
`true`. -/
def performSetEqualityScan (tx : TxModel) (q : Query) (filter : Statement) :
    List TripleRow :=
  tx.findByAVE (q.collectionName :: splitPath filter.1 ++ [qvalToIdString filter.2.2])
    (some (.bool true))

/-- `performEqualityScan` (collection-query.ts lines 306-322). -/
def performEqualityScan (tx : TxModel) (q : Query) (filter : Statement)
    (dataType : Option SAttrType) : List TripleRow :=
  match dataType with
  | some (.relationT _ _) => []
  | some .recordT => []
  | some .setT => performSetEqualityScan tx q filter
  | _ => performValueEqualityScan tx q filter

/-- `getFilterSetForQuery` (collection-query.ts lines 212-251): choose a
candidate filter; range candidates consume a complementary pair when one
exists; the chosen clauses are marked fulfilled; candidates are the
scanned triples' entity ids, `mapGen(..., (t) => t.id)`, with no
de-duplication. -/
def getFilterSetForQuery (tx : TxModel) (schema : Option SchemaModel) (q : Query)
    (fulfilled : QueryFulfillmentTracker) :
    Option (List String) × QueryFulfillmentTracker :=
  match findCandidateFilter schema q with
  | none => (none, fulfilled)
  | some cf =>
    match cf.kind with
    | .range =>
      let fulfilled1 := { fulfilled with whereF := fulfilled.whereF.set cf.idx true }
      match findRangeFilter q cf.path cf.idx (!GT_OPS.contains cf.op) with
      | some j =>
        let fulfilled2 := { fulfilled1 with whereF := fulfilled1.whereF.set j true }
        (some ((performRangeScan tx q (cf.path, cf.op, cf.value) (statementAt q j)).map
          (·.id)), fulfilled2)
      | none =>
        (some ((performRangeScan tx q (cf.path, cf.op, cf.value) none).map (·.id)),
          fulfilled1)
    | .equality =>
      let fulfilled1 := { fulfilled with whereF := fulfilled.whereF.set cf.idx true }
      (some ((performEqualityScan tx q (cf.path, cf.op, cf.value) cf.dataType).map
        (·.id)), fulfilled1)

/-- The source's `[trip.id, ...trip.attribute].join('-')` key for the
order-scan de-duplication pass. -/
def entityAttrKey (t : TripleRow) : String :=
  String.intercalate "-" (t.id :: t.attr)

/-- JS `Set.add`: appends only when absent, keeping insertion order. -/
def setAddId (ids : List String) (id : String) : List String :=
  if id ∈ ids then ids else ids ++ [id]

/-- JS `Set.delete` followed by `Set.add`: moves the id to the back. -/
def setReAddId (ids : List String) (id : String) : List String :=
  ids.erase id ++ [id]

/-- One iteration of the order-scan de-duplication loop
(collection-query.ts lines 190-206): remember the max timestamp per
`(entity, attribute)` and keep one occurrence of each entity id. -/
def orderScanStep (st : List (String × Timestamp) × List String) (t : TripleRow) :
    List (String × Timestamp) × List String :=
  match (st.1.find? (fun p => p.1 == entityAttrKey t)).map (·.2) with
  | none => (st.1 ++ [(entityAttrKey t, t.timestamp)], setAddId st.2 t.id)
  | some cur =>
    if timestampCompare t.timestamp cur > 0 then
      (st.1.map (fun p => if p.1 == entityAttrKey t then (p.1, t.timestamp) else p),
        setReAddId st.2 t.id)
    else st

/-- The order-scan de-duplication pass over the scanned triples
(collection-query.ts lines 190-207). -/
def orderScanDedup (triples : List TripleRow) : List String :=
  (triples.foldl orderScanStep ([], [])).2

/-- Modelled from the spec: the `createSchemaIterator` walk in
`getOrderSetForQuery` (the iterator lives in `schema/schema.js`, not
under the examined sources).  Walking the first order path yields
`(hasRelation, undefined)`: a `query` type stops with a relation; a
missing attribute stops as undefined; a non-record scalar admits no
deeper segments (spec §4.1 rule 4). -/
def orderPathSchemaCheckAux (s : SchemaModel) (col : String) :
    List String → Bool × Bool
  | [] => (false, false)
  | a :: rest =>
    match s col a with
    | none => (false, true)
    | some (.relationT _ _) => (true, false)
    | some (.recordT) => if rest.isEmpty then (false, false) else (false, true)
    | some _ => if rest.isEmpty then (false, false) else (false, true)

/-- Schema check for the first order attribute. -/
def orderPathSchemaCheck (schema : Option SchemaModel) (col : String)
    (path : List String) : Bool × Bool :=
  match schema with
  | none => (false, false)
  | some s => orderPathSchemaCheckAux s col path

/-- `getOrderSetForQuery` (collection-query.ts lines 131-210): walk the
attribute index for the first order key when it is schema-defined and
relation-free; translate a single-key `after` cursor to a cursor bound;
de-duplicate by max timestamp per entity-attribute. -/
def getOrderSetForQuery (tx : TxModel) (schema : Option SchemaModel) (q : Query)
    (fulfilled : QueryFulfillmentTracker) :
    Option (List String) × QueryFulfillmentTracker :=
  match q.order with
  | [] => (none, fulfilled)
  | (firstOrderAttr, firstOrderIsAsc) :: _ =>
    let singleOrder := q.order.length == 1
    let attrP := splitPath firstOrderAttr
    let checks := orderPathSchemaCheck schema q.collectionName attrP
    if checks.1 || checks.2 then (none, fulfilled)
    else
      let cursor : Option (QVal × String) := q.after.map (·.1)
      let inclusive : Bool := match q.after with
        | some (_, inc) => inc
        | none => false
      let gtArg := if singleOrder && firstOrderIsAsc then cursor else none
      let ltArg := if singleOrder && !firstOrderIsAsc then cursor else none
      let fulfilled1 : QueryFulfillmentTracker :=
        { fulfilled with
          afterF := if q.after.isSome then gtArg.isSome || ltArg.isSome else true,
          orderF := fulfilled.orderF.set 0 true }
      let rangeParams : RangeParams :=
        ⟨some firstOrderIsAsc, none, none, none, none,
          if inclusive then none else gtArg, if inclusive then gtArg else none,
          if inclusive then none else ltArg, if inclusive then ltArg else none⟩
      (some (orderScanDedup (tx.findValuesInRange (q.collectionName :: attrP) rangeParams)),
        fulfilled1)

/-- `getCollectionIds` (collection-query.ts lines 421-429). -/
def getCollectionIds (tx : TxModel) (q : Query) : List String :=
  (tx.findByAVE ["_collection"] (some (.str q.collectionName))).map (·.id)

/-- `getCandidateEntityIds` (collection-query.ts lines 431-469): id
point, then equality/range filter scan, then order scan, then full
collection scan. -/
def getCandidateEntityIds (tx : TxModel) (schema : Option SchemaModel)
    (skipIndex : Bool) (q : Query) : List String × QueryFulfillmentTracker :=
  let fulfilled : QueryFulfillmentTracker :=
    ⟨List.replicate q.whereClauses.length false,
      List.replicate q.order.length false, q.after.isNone⟩
  if skipIndex then (getCollectionIds tx q, fulfilled)
  else
    match getIdFilterFromQuery q with
    | some entityId => ([entityId], fulfilled)
    | none =>
      match getFilterSetForQuery tx schema q fulfilled with
      | (some filterSet, f1) => (filterSet, f1)
      | (none, _) =>
        match getOrderSetForQuery tx schema q fulfilled with
        | (some orderSet, f2) => (orderSet, f2)
        | (none, _) => (getCollectionIds tx q, fulfilled)

/-- Modelled from the spec: `getFilterPriorityOrder` (`query/filters.js`,
not under the examined sources).  Spec §4.4: an ordering
cheapest→most-expensive computed once per query: boolean literal >
scalar equality > range > set membership / other statement > group >
subquery.  The source calls it as `getFilterPriorityOrder(query)`
(collection-query.ts line 899), so it sees only the query — never the
per-fetch fulfillment tracker — and must order all where-clause
indices. -/
def filterCostClass : WhereFilter → Nat
  | .boolFilter _ => 0
  | .stmt _ o _ =>
    if EQUALITY_OPS.contains o then 1 else if RANGE_OPS.contains o then 2 else 3
  | .group _ _ => 4
  | .subQuery => 5
  | .existsRel => 5

/-- Stable insertion for the cost-ordered index list. -/
def insertByCost (costOf : Nat → Nat) (i : Nat) : List Nat → List Nat
  | [] => [i]
  | j :: js => if costOf i < costOf j then i :: j :: js else j :: insertByCost costOf i js

/-- Stable insertion sort of clause indices by cost class. -/
def sortIdxByCost (costOf : Nat → Nat) : List Nat → List Nat
  | [] => []
  | i :: is => insertByCost costOf i (sortIdxByCost costOf is)

/-- Modelled from the spec: priority order over all where-clause indices
(see `filterCostClass`). -/
def getFilterPriorityOrder (wcs : List WhereFilter) : List Nat :=
  sortIdxByCost
    (fun i => match wcs.get? i with
      | some f => filterCostClass f
      | none => 9)
    (List.range wcs.length)

/-- The clause indices evaluated by the returned `ApplyFilters` closure
(collection-query.ts lines 889-922): walk the priority order, evaluating
`satisfiesFilter` for each clause (`sat` is that oracle), and stop after
the first failing clause.  The closure receives no fulfillment
information. -/
def applyFiltersEvalOrder (order : List Nat) (sat : Nat → Bool) : List Nat :=
  match order with
  | [] => []
  | i :: rest => if sat i then i :: applyFiltersEvalOrder rest sat else [i]

/-- The clause indices `ApplyFilters` evaluates for a query, given the
per-clause satisfaction oracle. -/
def applyFiltersEvaluatedIdxs (q : Query) (sat : Nat → Bool) : List Nat :=
  applyFiltersEvalOrder (getFilterPriorityOrder q.whereClauses) sat

/-! ### Helper lemmas for the index selector and the filter evaluator -/

theorem applyFiltersEvalOrder_allTrue (l : List Nat) :
    applyFiltersEvalOrder l (fun _ => true) = l := by
  induction l with
  | nil => rfl
  | cons i rest ih => simp [applyFiltersEvalOrder, ih]

theorem mem_insertByCost (c : Nat → Nat) (i j : Nat) (l : List Nat) :
    i ∈ insertByCost c j l ↔ i = j ∨ i ∈ l := by
  induction l with
  | nil => simp [insertByCost]
  | cons k ks ih =>
    simp only [insertByCost]
    split
    · simp
    · simp only [List.mem_cons, ih]
      tauto

theorem mem_sortIdxByCost (c : Nat → Nat) (i : Nat) (l : List Nat) :
    i ∈ sortIdxByCost c l ↔ i ∈ l := by
  induction l with
  | nil => simp [sortIdxByCost]
  | cons j js ih => simp [sortIdxByCost, mem_insertByCost, ih]

/-- Whether a where clause is a statement eligible as an index
candidate (its operator is `=` or a range operator). -/
def filterEligible : WhereFilter → Bool
  | .stmt _ o _ => EQUALITY_OPS.contains o || RANGE_OPS.contains o
  | _ => false

theorem findCandidateFilterAux_append (schema : Option SchemaModel) (col : String)
    (pre rest : List WhereFilter) (i : Nat)
    (hpre : ∀ f ∈ pre, filterEligible f = false) :
    findCandidateFilterAux schema col (pre ++ rest) i
      = findCandidateFilterAux schema col rest (i + pre.length) := by
  induction pre generalizing i with
  | nil => simp
  | cons f pre' ih =>
    have hf : filterEligible f = false := hpre f (List.mem_cons_self _ _)
    have hpre' : ∀ g ∈ pre', filterEligible g = false := fun g hg =>
      hpre g (List.mem_cons_of_mem _ hg)
    have harith : (i + 1) + pre'.length = i + (pre'.length + 1) := by omega
    cases f with
    | stmt p o v =>
      simp only [filterEligible, Bool.or_eq_false_iff] at hf
      simp only [List.cons_append, findCandidateFilterAux, hf.1, hf.2,
        Bool.false_eq_true, if_false, List.length_cons]
      exact (ih _ hpre').trans (by rw [harith])
    | boolFilter b =>
      simp only [List.cons_append, findCandidateFilterAux, List.length_cons]
      exact (ih _ hpre').trans (by rw [harith])
    | subQuery =>
      simp only [List.cons_append, findCandidateFilterAux, List.length_cons]
      exact (ih _ hpre').trans (by rw [harith])
    | group m fs =>
      simp only [List.cons_append, findCandidateFilterAux, List.length_cons]
      exact (ih _ hpre').trans (by rw [harith])
    | existsRel =>
      simp only [List.cons_append, findCandidateFilterAux, List.length_cons]
      exact (ih _ hpre').trans (by rw [harith])

theorem range_op_not_equality (op : String) (h : RANGE_OPS.contains op = true) :
    EQUALITY_OPS.contains op = false := by
  simp only [RANGE_OPS, GT_OPS, LT_OPS] at h
  simp at h
  rcases h with h1 | h1 | h1 | h1 <;> subst h1 <;> decide

/-! ### Claim C1 -/

/-- A query whose single where clause the index selector fulfills via an
equality scan. -/
def c1Query : Query :=
  { collectionName := "posts"
    whereClauses := [.stmt "rank" "=" (.int 3)]
    order := []
    after := none
    limit := none
    includeAliases := [] }

/-- A store whose AVE index holds one matching triple for `c1Query`. -/
def c1Tx : TxModel :=
  ⟨fun _ _ => [⟨"posts#1", ["rank"], .int 3, ⟨1, "a"⟩⟩], fun _ _ => []⟩

/-- C1, counterexample: for `c1Query` the index selector marks the only
where clause fulfilled (`fulfilled.where[0] = true`), yet `ApplyFilters`
still evaluates clause 0 against the materialized entity — the fulfilled
clause is not skipped. -/
theorem claim_C1_counterexample :
    (getCandidateEntityIds c1Tx none false c1Query).2.whereF = [true]
      ∧ applyFiltersEvaluatedIdxs c1Query (fun _ => true) = [0] := by
  constructor
  · rfl
  · rfl

/-- C1, amended: index-fulfilled where clauses are not skipped.
`ApplyFilters` receives no fulfillment information: it evaluates clauses
in the cost-priority order computed from the query alone, stopping only
at the first unsatisfied clause; in particular, on an entity satisfying
every clause, every where clause — fulfilled or not — is evaluated. -/
theorem claim_C1_theorem (q : Query) (i : Nat)
    (h : i < q.whereClauses.length) :
    i ∈ applyFiltersEvaluatedIdxs q (fun _ => true) := by
  unfold applyFiltersEvaluatedIdxs
  rw [applyFiltersEvalOrder_allTrue]
  unfold getFilterPriorityOrder
  rw [mem_sortIdxByCost]
  exact List.mem_range.mpr h

/-- C1, witness: the amended theorem at `c1Query`, clause 0. -/
theorem claim_C1_witness :
    0 ∈ applyFiltersEvaluatedIdxs c1Query (fun _ => true) :=
  claim_C1_theorem c1Query 0 (by decide)

/-! ### Claim C3 -/

/-- Schema for the C3 counterexample: `posts.rank` and `posts.title` are
scalars. -/
def c3Schema : SchemaModel := fun col a =>
  if col == "posts" && (a == "rank" || a == "title") then some .scalarT else none

/-- Query for the C3 counterexample: a range statement precedes an
equality statement on a scalar path; there is no id-equality filter. -/
def c3Query : Query :=
  { collectionName := "posts"
    whereClauses := [.stmt "rank" "<" (.int 5), .stmt "title" "=" (.str "x")]
    order := []
    after := none
    limit := none
    includeAliases := [] }

/-- C3, counterexample: `c3Query` has no id filter, its where list holds
an `=` statement on the scalar path `title` (index 1) and an earlier
range statement (index 0), yet `findCandidateFilter` chooses the range
scan on index 0 — not the equality scan. -/
theorem claim_C3_counterexample :
    getIdFilterFromQuery c3Query = none
      ∧ candidateDataTypeFromPath (some c3Schema) "posts" "title" = some .scalarT
      ∧ (findCandidateFilter (some c3Schema) c3Query).map (fun cf => (cf.idx, cf.kind))
          = some (0, .range) := by
  refine ⟨rfl, rfl, rfl⟩

/-- C3, amended: `findCandidateFilter` scans the where list in order and
fires on the first statement whose operator is `=` or a range operator,
whichever kind that statement has; in particular, when a range statement
precedes every equality statement, the range rule wins. -/
theorem claim_C3_theorem (schema : Option SchemaModel) (q : Query)
    (pre rest : List WhereFilter) (path op : String) (v : QVal)
    (hq : q.whereClauses = pre ++ .stmt path op v :: rest)
    (hpre : ∀ f ∈ pre, filterEligible f = false)
    (hop : RANGE_OPS.contains op = true) :
    (findCandidateFilter schema q).map (fun cf => (cf.idx, cf.kind))
      = some (pre.length, .range) := by
  unfold findCandidateFilter
  rw [hq, findCandidateFilterAux_append schema q.collectionName pre _ 0 hpre]
  simp only [findCandidateFilterAux, range_op_not_equality op hop,
    Bool.false_eq_true, if_false, hop, if_true, Nat.zero_add]
  rfl

/-- C3, witness: the amended theorem at a concrete query whose clause 0
is a boolean literal and clause 1 a `>` statement. -/
theorem claim_C3_witness :
    (findCandidateFilter none
        { collectionName := "posts"
          whereClauses := [.boolFilter true, .stmt "rank" ">" (.int 0)]
          order := []
          after := none
          limit := none
          includeAliases := [] }).map (fun cf => (cf.idx, cf.kind))
      = some (1, .range) := by
  have h := claim_C3_theorem none
    { collectionName := "posts"
      whereClauses := [.boolFilter true, .stmt "rank" ">" (.int 0)]
      order := []
      after := none
      limit := none
      includeAliases := [] }
    [.boolFilter true] [] "rank" ">" (.int 0) rfl
    (by intro f hf; simp only [List.mem_singleton] at hf; subst hf; rfl)
    (by decide)
  simpa using h

/-! ### Claim C4 -/

theorem setAddId_nodup (ids : List String) (id : String) (h : ids.Nodup) :
    (setAddId ids id).Nodup := by
  unfold setAddId
  split
  · exact h
  · next hmem =>
    simp only [List.nodup_append, List.nodup_singleton, List.disjoint_singleton]
    exact ⟨h, trivial, hmem⟩

theorem setReAddId_nodup (ids : List String) (id : String) (h : ids.Nodup) :
    (setReAddId ids id).Nodup := by
  unfold setReAddId
  simp only [List.nodup_append, List.nodup_singleton, List.disjoint_singleton]
  refine ⟨h.erase id, trivial, fun hmem => ?_⟩
  exact absurd ((h.mem_erase_iff).mp hmem).1 (by simp)

theorem orderScanStep_nodup (st : List (String × Timestamp) × List String)
    (t : TripleRow) (h : st.2.Nodup) : (orderScanStep st t).2.Nodup := by
  unfold orderScanStep
  split
  · exact setAddId_nodup _ _ h
  · split
    · exact setReAddId_nodup _ _ h
    · exact h

theorem foldl_orderScanStep_nodup (ts : List TripleRow)
    (st : List (String × Timestamp) × List String) (h : st.2.Nodup) :
    ((ts.foldl orderScanStep st).2).Nodup := by
  induction ts generalizing st with
  | nil => exact h
  | cons t ts ih => exact ih _ (orderScanStep_nodup st t h)

theorem orderScanDedup_nodup (ts : List TripleRow) :
    (orderScanDedup ts).Nodup :=
  foldl_orderScanStep_nodup ts ([], []) List.nodup_nil

/-- A store whose range index returns two versions of the same entity's
`rank` triple (the value was updated from 10 to 20; both versions lie in
the scanned range), as spec §4.2 anticipates for range/order scans. -/
def c4Tx : TxModel :=
  ⟨fun _ _ => [],
    fun _ _ => [⟨"posts#1", ["rank"], .int 10, ⟨1, "a"⟩⟩,
      ⟨"posts#1", ["rank"], .int 20, ⟨2, "a"⟩⟩]⟩

/-- Query taking the range-scan access path. -/
def c4Query : Query :=
  { collectionName := "posts"
    whereClauses := [.stmt "rank" ">" (.int 5)]
    order := []
    after := none
    limit := none
    includeAliases := [] }

/-- C4, counterexample: on the range-scan access path the candidate
entity-id sequence is the raw `map(t => t.id)` of the scanned triples —
`posts#1` occurs twice, so the sequence is not de-duplicated. -/
theorem claim_C4_counterexample :
    (getCandidateEntityIds c4Tx none false c4Query).1 = ["posts#1", "posts#1"]
      ∧ ¬ ((getCandidateEntityIds c4Tx none false c4Query).1).Nodup := by
  constructor
  · rfl
  · decide

/-- C4, amended: only the order-scan access path de-duplicates its
candidate sequence (by the max-timestamp-per-entity-attribute pass);
whenever `getOrderSetForQuery` produces a candidate set, each entity id
occurs at most once in it.  The equality-, range- and full-collection
scans emit one id per matching triple version, without de-duplication. -/
theorem claim_C4_theorem (tx : TxModel) (schema : Option SchemaModel) (q : Query)
    (f : QueryFulfillmentTracker) (ids : List String)
    (h : (getOrderSetForQuery tx schema q f).1 = some ids) : ids.Nodup := by
  unfold getOrderSetForQuery at h
  revert h
  cases q.order with
  | nil => intro h; simp at h
  | cons o os =>
    simp only
    split
    · intro h; simp at h
    · intro h
      simp only [Option.some_inj] at h
      rw [← h]
      exact orderScanDedup_nodup _

/-- C4, witness: the amended theorem at a concrete order-scan query over
`c4Tx`; the duplicated triple versions collapse to one candidate id. -/
theorem claim_C4_witness :
    ([("posts#1" : String)] : List String).Nodup :=
  claim_C4_theorem c4Tx none
    { collectionName := "posts"
      whereClauses := []
      order := [("rank", true)]
      after := none
      limit := none
      includeAliases := [] }
    ⟨[], [false], true⟩ ["posts#1"] rfl

/-! ### Claim C2 — the after-cursor filter -/

/-- A stream element reaching `FilterAfterCursor`: the entity's external
id and the encoded value of its first order key (`encodeValue` images
are modelled as `Int`). -/
structure CEntity where
  id : String
  val : Int
deriving DecidableEq, Repr

/-- The closure state of `FilterAfterCursor` (collection-query.ts lines
930-932). -/
structure CursorState where
  cursorValueReached : Bool
  cursorValuePassed : Bool
  idReached : Bool
deriving DecidableEq, Repr

/-- One invocation of the closure returned by `FilterAfterCursor`
(collection-query.ts lines 926-964): early-accept once
`(cursorValueReached && idReached) || cursorValuePassed` held before
this element; otherwise update the state from this element and return
`inclusive && ((cursorValueReached && idReached) || cursorValuePassed)`. -/
def filterAfterCursorStep (col : String) (cursorVal : Int) (cursorId : String)
    (dirASC inclusive : Bool) (st : CursorState) (e : CEntity) :
    Bool × CursorState :=
  if (st.cursorValueReached && st.idReached) || st.cursorValuePassed then (true, st)
  else
    let st1 : CursorState :=
      if e.val == cursorVal then
        ⟨true, st.cursorValuePassed,
          st.idReached || (appendCollectionToId col e.id == cursorId)⟩
      else if (if dirASC then cursorVal < e.val else e.val < cursorVal) then
        ⟨st.cursorValueReached, true, st.idReached⟩
      else st
    (inclusive && ((st1.cursorValueReached && st1.idReached) || st1.cursorValuePassed),
      st1)

/-- Applying the `FilterAfterCursor` predicate along the (sorted)
pipeline stream. -/
def filterAfterCursorRun (col : String) (cursorVal : Int) (cursorId : String)
    (dirASC inclusive : Bool) (st : CursorState) : List CEntity → List CEntity
  | [] => []
  | e :: es =>
    let r := filterAfterCursorStep col cursorVal cursorId dirASC inclusive st e
    if r.1 then e :: filterAfterCursorRun col cursorVal cursorId dirASC inclusive r.2 es
    else filterAfterCursorRun col cursorVal cursorId dirASC inclusive r.2 es

/-- Value strictly past the cursor value in scan direction. -/
def valPast (dirASC : Bool) (v cursorVal : Int) : Bool :=
  if dirASC then decide (cursorVal < v) else decide (v < cursorVal)

/-- Value strictly before the cursor value in scan direction. -/
def valBefore (dirASC : Bool) (v cursorVal : Int) : Bool :=
  if dirASC then decide (v < cursorVal) else decide (cursorVal < v)

/-- `e` sorts strictly after the cursor in the total order the claim
references: first-order-key value in scan direction, then store id. -/
def sortsStrictlyAfterCursor (col : String) (cursorVal : Int) (cursorId : String)
    (dirASC : Bool) (e : CEntity) : Prop :=
  valPast dirASC e.val cursorVal = true
    ∨ (e.val = cursorVal ∧ cursorId < appendCollectionToId col e.id)

/-- `e` sorts strictly before the cursor in the same total order. -/
def sortsStrictlyBeforeCursor (col : String) (cursorVal : Int) (cursorId : String)
    (dirASC : Bool) (e : CEntity) : Prop :=
  valBefore dirASC e.val cursorVal = true
    ∨ (e.val = cursorVal ∧ appendCollectionToId col e.id < cursorId)

instance (col : String) (cv : Int) (cid : String) (dirASC : Bool) (e : CEntity) :
    Decidable (sortsStrictlyAfterCursor col cv cid dirASC e) := by
  unfold sortsStrictlyAfterCursor; infer_instance

instance (col : String) (cv : Int) (cid : String) (dirASC : Bool) (e : CEntity) :
    Decidable (sortsStrictlyBeforeCursor col cv cid dirASC e) := by
  unfold sortsStrictlyBeforeCursor; infer_instance

theorem filterAfterCursorRun_triggered (col : String) (cv : Int) (cid : String)
    (dirASC inclusive : Bool) (st : CursorState)
    (h1 : st.cursorValueReached = true) (h2 : st.idReached = true) :
    ∀ l, filterAfterCursorRun col cv cid dirASC inclusive st l = l := by
  intro l
  induction l with
  | nil => rfl
  | cons e es ih =>
    simp only [filterAfterCursorRun, filterAfterCursorStep, h1, h2,
      Bool.true_and, Bool.true_or, if_true, ih]

theorem filterAfterCursorRun_beforeCursor (col : String) (cv : Int) (cid : String)
    (dirASC : Bool) (c : CEntity) (l₂ : List CEntity)
    (hcv : c.val = cv) (hcid : appendCollectionToId col c.id = cid) :
    ∀ (l₁ : List CEntity) (st : CursorState),
      st.cursorValuePassed = false → st.idReached = false →
      (∀ e ∈ l₁, valPast dirASC e.val cv = false
        ∧ appendCollectionToId col e.id ≠ cid) →
      filterAfterCursorRun col cv cid dirASC false st (l₁ ++ c :: l₂) = l₂ := by
  intro l₁
  induction l₁ with
  | nil =>
    intro st hpass hid _
    simp only [List.nil_append, filterAfterCursorRun, filterAfterCursorStep,
      hpass, hid, Bool.and_false, Bool.false_or, Bool.or_false, if_false,
      Bool.false_and]
    rw [if_neg (by simp)]
    simp only [hcv, beq_self_eq_true, if_true, hcid, hid]
    exact filterAfterCursorRun_triggered col cv cid dirASC false _ rfl (by simp) l₂
  | cons e l₁' ih =>
    intro st hpass hid hall
    have he := hall e (List.mem_cons_self _ _)
    have hall' : ∀ x ∈ l₁', valPast dirASC x.val cv = false
        ∧ appendCollectionToId col x.id ≠ cid := fun x hx =>
      hall x (List.mem_cons_of_mem _ hx)
    simp only [List.cons_append, filterAfterCursorRun, filterAfterCursorStep,
      hpass, hid, Bool.and_false, Bool.false_or, Bool.or_false, if_false,
      Bool.false_and]
    rw [if_neg (by simp)]
    by_cases hv : e.val = cv
    · simp only [hv, beq_self_eq_true, if_true, hid, Bool.false_or]
      have : (appendCollectionToId col e.id == cid) = false := by
        simp [he.2]
      rw [this]
      exact ih _ rfl rfl hall'
    · have hbeq : (e.val == cv) = false := by simp [hv]
      rw [hbeq]
      simp only [Bool.false_eq_true, if_false]
      have hnp : ¬ (if dirASC = true then cv < e.val else e.val < cv) := by
        have h1 := he.1
        unfold valPast at h1
        cases dirASC <;> simp_all
      rw [if_neg hnp]
      exact ih _ hpass hid hall'

/-- C2, counterexample: a fetch over a sorted stream with cursor
`(10, "posts#x")`, `inclusive = false`, ascending: the stream holds one
entity, sorting strictly after the cursor, but the cursor's own entity
is not in the stream — the strictly-after entity is dropped, so "every
entity sorting strictly after the cursor is included" fails. -/
theorem claim_C2_counterexample :
    sortsStrictlyAfterCursor "posts" 10 "posts#x" true ⟨"y", 20⟩
      ∧ filterAfterCursorRun "posts" 10 "posts#x" true false ⟨false, false, false⟩
          [⟨"y", 20⟩] = [] := by
  constructor
  · left; decide
  · rfl

/-- C2, amended: provided the entity matching the cursor (same
first-order-key value, same store id) appears in the sorted stream —
everything positioned before it sorting strictly before the cursor, ids
distinct — the `inclusive = false` after-filter keeps exactly the
elements after it: the cursor's entity is excluded and every entity
sorting strictly after the cursor is included.  (Without that entity in
the stream, the first strictly-past element is also dropped, per the
counterexample.) -/
theorem claim_C2_theorem (col : String) (cv : Int) (cid : String) (dirASC : Bool)
    (l₁ l₂ : List CEntity) (c : CEntity)
    (hcv : c.val = cv) (hcid : appendCollectionToId col c.id = cid)
    (hsorted : ∀ e ∈ l₁, sortsStrictlyBeforeCursor col cv cid dirASC e)
    (hids : (((l₁ ++ c :: l₂).map (fun e => appendCollectionToId col e.id))).Nodup) :
    filterAfterCursorRun col cv cid dirASC false ⟨false, false, false⟩
        (l₁ ++ c :: l₂) = l₂
      ∧ c ∉ filterAfterCursorRun col cv cid dirASC false ⟨false, false, false⟩
          (l₁ ++ c :: l₂)
      ∧ ∀ e ∈ l₁ ++ c :: l₂, sortsStrictlyAfterCursor col cv cid dirASC e →
          e ∈ filterAfterCursorRun col cv cid dirASC false ⟨false, false, false⟩
            (l₁ ++ c :: l₂) := by
  have hmap : ((l₁.map (fun e => appendCollectionToId col e.id)) ++
      appendCollectionToId col c.id :: l₂.map (fun e => appendCollectionToId col e.id)).Nodup := by
    simpa using hids
  have hdisj := (List.nodup_append.mp hmap).2.2
  have hcnotl₂ : appendCollectionToId col c.id ∉
      l₂.map (fun e => appendCollectionToId col e.id) :=
    (List.nodup_cons.mp (List.nodup_append.mp hmap).2.1).1
  have hl₁ : ∀ e ∈ l₁, valPast dirASC e.val cv = false
      ∧ appendCollectionToId col e.id ≠ cid := by
    intro e he
    have hne : appendCollectionToId col e.id ≠ cid := by
      intro heq
      exact hdisj (List.mem_map_of_mem _ he)
        (by rw [← hcid] at heq; rw [heq]; exact List.mem_cons_self _ _)
    refine ⟨?_, hne⟩
    rcases hsorted e he with hb | ⟨heq, _⟩
    · unfold valBefore at hb
      unfold valPast
      cases dirASC <;> simp_all <;> omega
    · unfold valPast
      rw [heq]
      cases dirASC <;> simp
  have hrun := filterAfterCursorRun_beforeCursor col cv cid dirASC c l₂ hcv hcid l₁
    ⟨false, false, false⟩ rfl rfl hl₁
  refine ⟨hrun, ?_, ?_⟩
  · rw [hrun]
    intro hc
    exact hcnotl₂ (List.mem_map_of_mem _ hc)
  · intro e he hafter
    rw [hrun]
    rcases List.mem_append.mp he with he₁ | he₂
    · exfalso
      have hb := hsorted e he₁
      rcases hafter with ha | ⟨haeq, halt⟩
      · rcases hb with hbb | ⟨hbeq, _⟩
        · unfold valPast at ha
          unfold valBefore at hbb
          cases dirASC <;> simp_all <;> omega
        · unfold valPast at ha
          rw [hbeq] at ha
          cases dirASC <;> simp_all
      · rcases hb with hbb | ⟨hbeq, hblt⟩
        · unfold valBefore at hbb
          rw [haeq] at hbb
          cases dirASC <;> simp_all
        · exact absurd (halt.trans hblt) (lt_irrefl _)
    · rcases List.mem_cons.mp he₂ with rfl | h₂
      · exfalso
        rcases hafter with ha | ⟨_, halt⟩
        · unfold valPast at ha
          rw [hcv] at ha
          cases dirASC <;> simp_all
        · rw [hcid] at halt
          exact absurd halt (lt_irrefl _)
      · exact h₂

/-- C2, witness: the amended theorem at a concrete sorted stream
containing the cursor's entity. -/
theorem claim_C2_witness :
    filterAfterCursorRun "posts" 10 "posts#b" true false ⟨false, false, false⟩
        [⟨"a", 5⟩, ⟨"b", 10⟩, ⟨"d", 20⟩] = [⟨"d", 20⟩] := by
  have h := claim_C2_theorem "posts" 10 "posts#b" true [⟨"a", 5⟩] [⟨"d", 20⟩]
    ⟨"b", 10⟩ rfl rfl (by decide) (by decide)
  exact h.1

/-! ### Claim C7 — the sorter -/

/-- An entity as the sorter sees it: order-key attribute → encoded value
(`encodeValue` images modelled as `Int`); a missing attribute is
`undefined` and is encoded as `MIN`. -/
abbrev SEntity := List (String × Int)

/-- `getPropertyFromPath` followed by the `[0]` value projection
(collection-query.ts lines 1348-1349, 1360-1362), for the top-level
order keys the claims exercise. -/
def lookupAttr (e : SEntity) (k : String) : Option Int :=
  (e.find? (fun p => p.1 == k)).map (·.2)

/-- Comparison of encoded values where `none` plays `encodeValue MIN`,
which sorts strictly below every value. -/
def encLt : Option Int → Option Int → Bool
  | none, none => false
  | none, some _ => true
  | some _, none => false
  | some a, some b => decide (a < b)

/-- `querySorter` (collection-query.ts lines 1345-1357): walk the order
keys; the first key with distinct encoded values decides (negated for
DESC); ties on every key yield `0`.  No entity-id tiebreak exists. -/
def querySorter (order : List (String × Bool)) (a b : SEntity) : Int :=
  match order with
  | [] => 0
  | (prop, isAsc) :: rest =>
    let ea := lookupAttr a prop
    let eb := lookupAttr b prop
    let d : Int := if encLt ea eb then -1 else if encLt eb ea then 1 else 0
    if d = 0 then querySorter rest a b else if isAsc then d else -d

/-- Stable insertion: a later-inserted element goes after its ties, as
JS `Array.prototype.sort` (stable per the ECMAScript spec) does. -/
def insertByCmp (cmp : α → α → Int) (x : α) : List α → List α
  | [] => [x]
  | y :: ys => if cmp x y ≤ 0 then x :: y :: ys else y :: insertByCmp cmp x ys

/-- Stable sort by a JS comparator. -/
def sortByCmp (cmp : α → α → Int) : List α → List α
  | [] => []
  | x :: xs => insertByCmp cmp x (sortByCmp cmp xs)

/-- `sortEntities` (collection-query.ts lines 1337-1343): no order, no
sort; otherwise a stable sort of the `(id, entity)` entries by
`querySorter` on the entities. -/
def sortEntities (q : Query) (entities : List (String × SEntity)) :
    List (String × SEntity) :=
  match q.order with
  | [] => entities
  | _ => sortByCmp (fun a b => querySorter q.order a.2 b.2) entities

/-- The C7 counterexample query: a single ascending order key. -/
def c7Query : Query :=
  { collectionName := "posts"
    whereClauses := []
    order := [("rank", true)]
    after := none
    limit := none
    includeAliases := [] }

/-- The C7 counterexample entity value: both entities carry `rank = 5`. -/
def c7Entity : SEntity := [("rank", 5)]

/-- C7, counterexample: two entities tied on every order key keep their
incoming order — `["b", "a"]` stays `["b", "a"]` and `["a", "b"]` stays
`["a", "b"]` — so the final order is not determined by `entity_id` in
either direction: the comparator returns `0` on full ties and never
consults the id. -/
theorem claim_C7_counterexample :
    sortEntities c7Query [("b", c7Entity), ("a", c7Entity)]
        = [("b", c7Entity), ("a", c7Entity)]
      ∧ sortEntities c7Query [("a", c7Entity), ("b", c7Entity)]
          = [("a", c7Entity), ("b", c7Entity)]
      ∧ querySorter c7Query.order c7Entity c7Entity = 0
      ∧ ("a" : String) < "b" := by
  refine ⟨rfl, rfl, rfl, ?_⟩
  rw [String.lt_iff_toList_lt]
  exact List.Lex.rel (by decide)

theorem encLt_self (x : Option Int) : encLt x x = false := by
  cases x with
  | none => rfl
  | some a => simp [encLt]

/-- C7, amended: ties on the primary order key are broken by the
subsequent order keys, but entities tied on every order key compare
equal — `querySorter` never consults `entity_id` — and the stable sort
therefore leaves fully-tied entities in their incoming order. -/
theorem claim_C7_theorem :
    (∀ (prop : String) (isAsc : Bool) (rest : List (String × Bool)) (a b : SEntity),
        lookupAttr a prop = lookupAttr b prop →
        querySorter ((prop, isAsc) :: rest) a b = querySorter rest a b)
      ∧ (∀ (order : List (String × Bool)) (a b : SEntity),
          (∀ p ∈ order, lookupAttr a p.1 = lookupAttr b p.1) →
          querySorter order a b = 0) := by
  have head : ∀ (prop : String) (isAsc : Bool) (rest : List (String × Bool))
      (a b : SEntity), lookupAttr a prop = lookupAttr b prop →
      querySorter ((prop, isAsc) :: rest) a b = querySorter rest a b := by
    intro prop isAsc rest a b htie
    simp only [querySorter, htie, encLt_self, Bool.false_eq_true, if_false]
    simp
  refine ⟨head, ?_⟩
  intro order
  induction order with
  | nil => intro a b _; rfl
  | cons p rest ih =>
    intro a b hall
    rw [show p = (p.1, p.2) from rfl,
      head p.1 p.2 rest a b (hall p (List.mem_cons_self _ _))]
    exact ih a b (fun x hx => hall x (List.mem_cons_of_mem _ hx))

/-- C7, witness: the amended theorem's tie case at the counterexample
entities. -/
theorem claim_C7_witness :
    querySorter [("rank", true)] c7Entity c7Entity = 0 :=
  claim_C7_theorem.2 [("rank", true)] c7Entity c7Entity (by decide)

/-! ### Claim C5 — `loadSubquery` stack discipline -/

/-- A frame on the execution context's `queriedDataStack`: the parent
entity's scalar attributes (spec §3 "Frame"). -/
abbrev Frame := List (String × QVal)

/-- The body of `loadSubquery` between the push and the pop (prepare +
`fetch`/`fetchOne`): it may succeed or throw, and — because the stack is
shared by reference down the recursive call tree — it may itself change
the stack; modelled as a function from the pushed stack to the result
and the stack at the moment control returns or the exception escapes. -/
def InnerFetch (E A : Type) := List Frame → Except E A × List Frame

/-- The stack discipline of `loadSubquery` (collection-query.ts lines
1110-1160): push `entityVars` by reassignment
(`executionContext.queriedDataStack = [...stack, entityVars]`), run the
inner prepare/fetch, then `queriedDataStack.pop()` — but the pop sits on
the straight-line success path only: there is no `try`/`finally`, so an
exception from the inner fetch propagates before the pop executes. -/
def loadSubqueryStack (inner : InnerFetch E A) (stack : List Frame)
    (entityVars : Frame) : Except E A × List Frame :=
  let pushed := stack ++ [entityVars]
  match inner pushed with
  | (.ok a, s) => (.ok a, s.dropLast)
  | (.error e, s) => (.error e, s)

/-- An inner fetch that throws immediately, leaving the stack exactly as
it received it. -/
def failingFetch : InnerFetch String Unit := fun s => (.error "fetch failed", s)

/-- An inner fetch that returns normally, leaving the stack exactly as
it received it. -/
def succeedingFetch : InnerFetch String Unit := fun s => (.ok (), s)

/-- C5: evaluation of `loadSubquery`'s stack discipline.  On the success
path the frame pushed onto the empty stack is popped again (depth `0`),
but when the inner fetch throws — even one that itself preserves the
stack — `loadSubquery` exits through the exception with the pushed frame
still on the stack: depth `1`, not the entry depth `0`.  The pop is not
guaranteed on failure. -/
theorem claim_C5_theorem :
    (loadSubqueryStack succeedingFetch [] [("id", .str "1")]).2.length = 0
      ∧ (loadSubqueryStack failingFetch [] [("id", .str "1")]).2.length = 1
      ∧ (loadSubqueryStack failingFetch [] [("id", .str "1")]).1
          = .error "fetch failed" :=
  ⟨rfl, rfl, rfl⟩

/-! ### Claim C6 — the delta engine's state vector -/

/-- JS `Map.get` on the state vector. -/
def svLookup (m : List (String × Int)) (c : String) : Option Int :=
  (m.find? (fun p => p.1 == c)).map (·.2)

/-- JS `Map.set` on the state vector: replace the value at an existing
key in place, else append (a JS `Map` keeps unique keys in insertion
order). -/
def svSet : List (String × Int) → String → Int → List (String × Int)
  | [], c, v => [(c, v)]
  | p :: m, c, v => if p.1 == c then (p.1, v) :: m else p :: svSet m c v

/-- One step of the state-vector reduction in `fetchDeltaTriples`
(collection-query.ts lines 610-616): for each new triple, if the client
is unseen or its tick is below the stored value plus one, store
`Math.max(tick - 1, 0)`. -/
def stateVectorStep (acc : List (String × Int)) (curr : TripleRow) :
    List (String × Int) :=
  match svLookup acc curr.timestamp.clientId with
  | none => svSet acc curr.timestamp.clientId (max (curr.timestamp.tick - 1) 0)
  | some v =>
    if curr.timestamp.tick < v + 1 then
      svSet acc curr.timestamp.clientId (max (curr.timestamp.tick - 1) 0)
    else acc

/-- The state vector derived from the new triples by `fetchDeltaTriples`
(collection-query.ts lines 610-616). -/
def deriveStateVector (newTriples : List TripleRow) : List (String × Int) :=
  newTriples.foldl stateVectorStep []

/-- The ticks a client contributes to a triple list. -/
def clientTicks (c : String) (ts : List TripleRow) : List Int :=
  (ts.filter (fun t => t.timestamp.clientId == c)).map (fun t => t.timestamp.tick)

/-- The minimum of a tick list (`0` when empty). -/
def listMin : List Int → Int
  | [] => 0
  | t :: rest => rest.foldl min t

/-- The minimum tick among a client's triples (`0` when there are none). -/
def minTickFor (c : String) (ts : List TripleRow) : Int :=
  listMin (clientTicks c ts)

/-- Modelled from the spec: the state-vector bound of `triplesToEntities`
(`query.js`, not under the examined sources) — a state vector means
"everything ≤ tick seen from this client" (spec §3), so bounded
materialization keeps a triple iff its client is unbounded or its tick
is within the bound; invariant 1 of spec §3 then determines the entity
view from the kept triples alone. -/
def svFilterTriples (triples : List TripleRow) (sv : List (String × Int)) :
    List TripleRow :=
  triples.filter fun t =>
    match svLookup sv t.timestamp.clientId with
    | none => true
    | some b => decide (t.timestamp.tick ≤ b)

theorem svLookup_svSet_self (m : List (String × Int)) (c : String) (v : Int) :
    svLookup (svSet m c v) c = some v := by
  induction m with
  | nil => simp [svSet, svLookup]
  | cons p m ih =>
    by_cases hc : p.1 = c
    · simp [svSet, svLookup, hc]
    · have hbeq : (p.1 == c) = false := by simp [hc]
      simp only [svSet, hbeq, Bool.false_eq_true, if_false]
      unfold svLookup
      rw [List.find?_cons_of_neg _ (by simp [hbeq])]
      exact ih

theorem svLookup_svSet_ne (m : List (String × Int)) (c c' : String) (v : Int)
    (h : c ≠ c') : svLookup (svSet m c' v) c = svLookup m c := by
  have h' : c' ≠ c := fun hh => h hh.symm
  induction m with
  | nil =>
    simp [svSet, svLookup, h']
  | cons p m ih =>
    by_cases hc : p.1 = c'
    · simp only [svSet, hc, beq_self_eq_true, if_true]
      unfold svLookup
      rw [List.find?_cons_of_neg _ (by simp [hc, h']),
        List.find?_cons_of_neg _ (by simp [hc, h'])]
    · have hbeq : (p.1 == c') = false := by simp [hc]
      simp only [svSet, hbeq, Bool.false_eq_true, if_false]
      by_cases hpc : p.1 = c
      · unfold svLookup
        rw [List.find?_cons_of_pos _ (by simp [hpc]),
          List.find?_cons_of_pos _ (by simp [hpc])]
      · unfold svLookup
        rw [List.find?_cons_of_neg _ (by simp [hpc]),
          List.find?_cons_of_neg _ (by simp [hpc])]
        exact ih

theorem listMin_append_one (l : List Int) (x : Int) (h : l ≠ []) :
    listMin (l ++ [x]) = min (listMin l) x := by
  cases l with
  | nil => exact absurd rfl h
  | cons t₀ rest =>
    simp only [listMin, List.cons_append, List.foldl_append, List.foldl_cons,
      List.foldl_nil]

/-- The fold invariant: after processing `processed`, the accumulator
maps each seen client to `max (min tick - 1) 0` and omits unseen
clients. -/
def svInvariant (acc : List (String × Int)) (processed : List TripleRow) : Prop :=
  ∀ c, svLookup acc c =
    if clientTicks c processed = [] then none
    else some (max (listMin (clientTicks c processed) - 1) 0)

theorem clientTicks_append_one (c : String) (ts : List TripleRow) (t : TripleRow) :
    clientTicks c (ts ++ [t]) =
      if t.timestamp.clientId = c then clientTicks c ts ++ [t.timestamp.tick]
      else clientTicks c ts := by
  unfold clientTicks
  rw [List.filter_append, List.map_append]
  split
  · next hc => simp [List.filter, hc]
  · next hc =>
    have : (t.timestamp.clientId == c) = false := by simp [hc]
    simp [List.filter, this]

theorem stateVectorStep_invariant (acc : List (String × Int))
    (processed : List TripleRow) (t : TripleRow) (h : svInvariant acc processed) :
    svInvariant (stateVectorStep acc t) (processed ++ [t]) := by
  intro c
  by_cases hc : t.timestamp.clientId = c
  · rw [clientTicks_append_one, if_pos hc, if_neg (by simp)]
    cases hticks : clientTicks c processed with
    | nil =>
      have hl := h c
      rw [hticks, if_pos rfl] at hl
      have hstep : stateVectorStep acc t
          = svSet acc c (max (t.timestamp.tick - 1) 0) := by
        unfold stateVectorStep
        rw [hc, hl]
      rw [hstep, svLookup_svSet_self]
      simp [listMin]
    | cons t₀ rest =>
      have hl := h c
      rw [hticks, if_neg (by simp)] at hl
      have hstep : stateVectorStep acc t
          = if t.timestamp.tick < (max (listMin (t₀ :: rest) - 1) 0) + 1
            then svSet acc c (max (t.timestamp.tick - 1) 0) else acc := by
        unfold stateVectorStep
        rw [hc, hl]
      rw [hstep, listMin_append_one _ _ (by simp)]
      split
      · next hcond =>
        rw [svLookup_svSet_self]
        congr 1
        omega
      · next hcond =>
        rw [hl]
        congr 1
        omega
  · rw [clientTicks_append_one, if_neg hc]
    unfold stateVectorStep
    cases svLookup acc t.timestamp.clientId with
    | none => rw [svLookup_svSet_ne _ _ _ _ (fun hh => hc hh.symm)]; exact h c
    | some v =>
      simp only
      split
      · rw [svLookup_svSet_ne _ _ _ _ (fun hh => hc hh.symm)]; exact h c
      · exact h c

theorem foldl_stateVectorStep_invariant (ts : List TripleRow) :
    ∀ (processed : List TripleRow) (acc : List (String × Int)),
      svInvariant acc processed →
      svInvariant (ts.foldl stateVectorStep acc) (processed ++ ts) := by
  induction ts with
  | nil => intro processed acc h; simpa using h
  | cons t ts ih =>
    intro processed acc h
    have h1 := stateVectorStep_invariant acc processed t h
    have h2 := ih (processed ++ [t]) _ h1
    simpa using h2

theorem deriveStateVector_spec (newTriples : List TripleRow) (c : String) :
    svLookup (deriveStateVector newTriples) c =
      if clientTicks c newTriples = [] then none
      else some (max (minTickFor c newTriples - 1) 0) := by
  have base : svInvariant [] [] := by
    intro c'
    simp [svLookup, clientTicks]
  have hinv := foldl_stateVectorStep_invariant newTriples [] [] base c
  simpa [deriveStateVector, minTickFor] using hinv

theorem foldl_min_or (rest : List Int) :
    ∀ t₀ : Int, rest.foldl min t₀ = t₀ ∨ rest.foldl min t₀ ∈ rest := by
  induction rest with
  | nil => intro t₀; left; rfl
  | cons r rs ih =>
    intro t₀
    rw [List.foldl_cons]
    rcases ih (min t₀ r) with h | h
    · rw [h]
      rcases le_total t₀ r with hle | hle
      · left; exact min_eq_left hle
      · right; rw [min_eq_right hle]; exact List.mem_cons_self _ _
    · right; exact List.mem_cons_of_mem _ h

theorem listMin_mem (l : List Int) (h : l ≠ []) : listMin l ∈ l := by
  cases l with
  | nil => exact absurd rfl h
  | cons t₀ rest =>
    show rest.foldl min t₀ ∈ t₀ :: rest
    rcases foldl_min_or rest t₀ with h1 | h1
    · rw [h1]; exact List.mem_cons_self _ _
    · exact List.mem_cons_of_mem _ h1

theorem foldl_min_le_all (rest : List Int) :
    ∀ t₀ : Int, rest.foldl min t₀ ≤ t₀ ∧ ∀ x ∈ rest, rest.foldl min t₀ ≤ x := by
  induction rest with
  | nil => intro t₀; exact ⟨le_refl _, by simp⟩
  | cons r rs ih =>
    intro t₀
    rw [List.foldl_cons]
    have h := ih (min t₀ r)
    refine ⟨le_trans h.1 (by omega), ?_⟩
    intro x hx
    rcases List.mem_cons.mp hx with rfl | hx'
    · exact le_trans h.1 (by omega)
    · exact h.2 x hx'

theorem listMin_le (l : List Int) (x : Int) (hx : x ∈ l) : listMin l ≤ x := by
  cases l with
  | nil => exact absurd hx (List.not_mem_nil _)
  | cons t₀ rest =>
    show rest.foldl min t₀ ≤ x
    rcases List.mem_cons.mp hx with rfl | hx'
    · exact (foldl_min_le_all rest x).1
    · exact (foldl_min_le_all rest t₀).2 x hx'

theorem mem_clientTicks (c : String) (ts : List TripleRow) (x : Int) :
    x ∈ clientTicks c ts ↔
      ∃ t ∈ ts, t.timestamp.clientId = c ∧ t.timestamp.tick = x := by
  unfold clientTicks
  simp only [List.mem_map, List.mem_filter, beq_iff_eq]
  constructor
  · rintro ⟨t, ⟨ht, hc⟩, hx⟩
    exact ⟨t, ht, hc, hx⟩
  · rintro ⟨t, ht, hc, hx⟩
    exact ⟨t, ⟨ht, hc⟩, hx⟩

/-- C6, counterexample: one new triple with tick `0` from client `a`.
The derived state vector maps `a` to `0` (the source clamps with
`Math.max(tick - 1, 0)`), not to the claim's `min(tick) - 1 = -1`. -/
theorem claim_C6_counterexample :
    svLookup (deriveStateVector [⟨"posts#1", ["a"], .int 1, ⟨0, "a"⟩⟩]) "a" = some 0
      ∧ minTickFor "a" [⟨"posts#1", ["a"], .int 1, ⟨0, "a"⟩⟩] - 1 = -1
      ∧ ¬ (svLookup (deriveStateVector [⟨"posts#1", ["a"], .int 1, ⟨0, "a"⟩⟩]) "a"
            = some (minTickFor "a" [⟨"posts#1", ["a"], .int 1, ⟨0, "a"⟩⟩] - 1)) := by
  refine ⟨rfl, rfl, by decide⟩

/-- C6, amended: the derived state vector maps each client appearing in
the new triples to `max (min tick - 1) 0` (the source clamps at `0`) and
omits the other clients; and bounded materialization at that state
vector yields the before view: when every client's new ticks are
positive and exceed all of that client's pre-existing ticks, the
state-vector filter over old-plus-new triples keeps exactly the old
triples. -/
theorem claim_C6_theorem :
    (∀ (newTriples : List TripleRow) (c : String),
        clientTicks c newTriples ≠ [] →
        svLookup (deriveStateVector newTriples) c
          = some (max (minTickFor c newTriples - 1) 0))
      ∧ (∀ (newTriples : List TripleRow) (c : String),
          clientTicks c newTriples = [] →
          svLookup (deriveStateVector newTriples) c = none)
      ∧ (∀ (old newTriples : List TripleRow),
          (∀ n ∈ newTriples, 1 ≤ n.timestamp.tick) →
          (∀ t ∈ old, ∀ n ∈ newTriples,
            t.timestamp.clientId = n.timestamp.clientId →
            t.timestamp.tick < n.timestamp.tick) →
          svFilterTriples (old ++ newTriples) (deriveStateVector newTriples) = old) := by
  have hspec := deriveStateVector_spec
  refine ⟨?_, ?_, ?_⟩
  · intro newTriples c hne
    rw [hspec newTriples c, if_neg hne]
  · intro newTriples c hnil
    rw [hspec newTriples c, if_pos hnil]
  · intro old newTriples hpos hord
    unfold svFilterTriples
    rw [List.filter_append]
    have hnewdrop : ∀ n ∈ newTriples,
        (match svLookup (deriveStateVector newTriples) n.timestamp.clientId with
          | none => true
          | some b => decide (n.timestamp.tick ≤ b)) = false := by
      intro n hn
      have hmem : n.timestamp.tick ∈ clientTicks n.timestamp.clientId newTriples :=
        (mem_clientTicks _ _ _).mpr ⟨n, hn, rfl, rfl⟩
      have hne : clientTicks n.timestamp.clientId newTriples ≠ [] := by
        intro hnil
        rw [hnil] at hmem
        exact List.not_mem_nil _ hmem
      rw [hspec newTriples n.timestamp.clientId, if_neg hne]
      simp only [decide_eq_false_iff_not, not_le]
      have hmt : minTickFor n.timestamp.clientId newTriples
          = listMin (clientTicks n.timestamp.clientId newTriples) := rfl
      rcases (mem_clientTicks _ _ _).mp (listMin_mem _ hne) with ⟨nm, hnm, _, hxm⟩
      have h1 : 1 ≤ listMin (clientTicks n.timestamp.clientId newTriples) := by
        rw [← hxm]
        exact hpos nm hnm
      have hle := listMin_le _ _ hmem
      rw [hmt]
      omega
    have holdkeep : ∀ t ∈ old,
        (match svLookup (deriveStateVector newTriples) t.timestamp.clientId with
          | none => true
          | some b => decide (t.timestamp.tick ≤ b)) = true := by
      intro t ht
      rw [hspec newTriples t.timestamp.clientId]
      by_cases hne : clientTicks t.timestamp.clientId newTriples = []
      · rw [if_pos hne]
      · rw [if_neg hne]
        simp only [decide_eq_true_eq]
        have hmt : minTickFor t.timestamp.clientId newTriples
            = listMin (clientTicks t.timestamp.clientId newTriples) := rfl
        rcases (mem_clientTicks _ _ _).mp (listMin_mem _ hne) with ⟨n, hn, hcn, hxn⟩
        have hlt := hord t ht n hn hcn.symm
        rw [hxn] at hlt
        rw [hmt]
        omega
    rw [List.filter_eq_self.mpr holdkeep,
      List.filter_eq_nil_iff.mpr (by intro n hn; rw [hnewdrop n hn]; simp),
      List.append_nil]

/-- C6, witness: the amended theorem at one old and one new triple from
client `a` (ticks 1 and 2): the state vector maps `a` to `1`, and the
bounded materialization keeps exactly the old triple. -/
theorem claim_C6_witness :
    svLookup (deriveStateVector [⟨"e", ["x"], .int 9, ⟨2, "a"⟩⟩]) "a" = some 1
      ∧ svFilterTriples
          ([⟨"e", ["x"], .int 7, ⟨1, "a"⟩⟩] ++ [⟨"e", ["x"], .int 9, ⟨2, "a"⟩⟩])
          (deriveStateVector [⟨"e", ["x"], .int 9, ⟨2, "a"⟩⟩])
        = [⟨"e", ["x"], .int 7, ⟨1, "a"⟩⟩] := by
  constructor
  · have h := claim_C6_theorem.1 [⟨"e", ["x"], .int 9, ⟨2, "a"⟩⟩] "a" (by decide)
    rw [h]
    rfl
  · exact claim_C6_theorem.2.2 [⟨"e", ["x"], .int 7, ⟨1, "a"⟩⟩]
      [⟨"e", ["x"], .int 9, ⟨2, "a"⟩⟩] (by decide) (by decide)

/-! ### Claim C8 — relation variables of cardinality many -/

/-- Errors raised on the engine paths modelled here.  At the sites the
claims examine the source constructs a plain `TriplitError` with a
message. -/
inductive EngineError where
  | triplitErr (msg : String)
deriving DecidableEq, Repr

/-- Modelled from the spec: the schema-traverser walk of
`getRelationsFromIdentifier` (the traverser lives in
`schema/schema.js`): collect the `query`-typed (relation) nodes along
the path, descending into each relation's target collection; the walk
stops at a non-relation node (relations nested inside records are out
of scope) (spec §4.5). -/
def relationsAlongPath (s : SchemaModel) (col : String) :
    List String → List (Cardinality × String)
  | [] => []
  | a :: rest =>
    match s col a with
    | some (.relationT c t) => (c, t) :: relationsAlongPath s t rest
    | _ => []

/-- Models `parseInt` for the scope strings the engine generates: a
scope is numeric iff it is a non-empty digit string. -/
def isNumericScope (scope : String) : Bool :=
  !scope.data.isEmpty && scope.data.all (·.isDigit)

/-- `loadRelationshipsIntoContextFromVariable` (collection-query.ts
lines 2011-2070), reduced to its control flow: nothing happens without a
schema or for a non-numeric scope; with relations on the variable path,
only the ROOT relation's cardinality is checked
(`rootRelationQueryType.cardinality !== 'one'`), and when it is not
`one` the source throws
`new TriplitError('Cannot load variables with cardinality "many"')`.
The returned Bool reports whether a relation load takes place. -/
def loadVariableCheck (schema : Option SchemaModel) (scope : String)
    (key : List String) (refCollection : String) : Except EngineError Bool :=
  match schema with
  | none => .ok false
  | some s =>
    if isNumericScope scope then
      match relationsAlongPath s refCollection key with
      | [] => .ok false
      | (c, _) :: _ =>
        if c ≠ .one then
          .error (.triplitErr "Cannot load variables with cardinality \"many\"")
        else .ok true
    else .ok false

/-- Schema for the C8 counterexample: `users.bestFriend` is a
cardinality-one relation back to `users`, and `users.posts` is a
cardinality-many relation to `posts`. -/
def c8Schema : SchemaModel := fun col a =>
  if col == "users" && a == "bestFriend" then some (.relationT .one "users")
  else if col == "users" && a == "posts" then some (.relationT .many "posts")
  else none

/-- C8, counterexample: the variable path `bestFriend.posts` resolves
through the cardinality-many relation `posts`, yet the loader succeeds
(`.ok true`) — no error of any kind is raised, because only the root
relation's cardinality is inspected. -/
theorem claim_C8_counterexample :
    relationsAlongPath c8Schema "users" ["bestFriend", "posts"]
        = [(.one, "users"), (.many, "posts")]
      ∧ loadVariableCheck (some c8Schema) "1" ["bestFriend", "posts"] "users"
          = .ok true :=
  ⟨rfl, rfl⟩

/-- C8, amended: for a schema-bearing query and a numeric-scope variable
whose path contains at least one relation, the loader throws a plain
`TriplitError` (`'Cannot load variables with cardinality "many"'`) — not
a distinct `VariableRelationCardinalityError` — exactly when the ROOT
relation's cardinality is `many`; relations deeper in the path are never
checked. -/
theorem claim_C8_theorem (s : SchemaModel) (scope : String) (key : List String)
    (col : String) (c : Cardinality) (t : String)
    (rest : List (Cardinality × String))
    (hscope : isNumericScope scope = true)
    (hrel : relationsAlongPath s col key = (c, t) :: rest) :
    loadVariableCheck (some s) scope key col
      = if c = .many then
          .error (.triplitErr "Cannot load variables with cardinality \"many\"")
        else .ok true := by
  simp only [loadVariableCheck]
  rw [if_pos hscope, hrel]
  cases c with
  | one => simp
  | many => simp

/-- C8, witness: the amended theorem at a root cardinality-many
variable path, which does raise the `TriplitError`. -/
theorem claim_C8_witness :
    loadVariableCheck (some c8Schema) "1" ["posts"] "users"
      = .error (.triplitErr "Cannot load variables with cardinality \"many\"") := by
  have h := claim_C8_theorem c8Schema "1" ["posts"] "users" .many "posts" []
    (by decide) rfl
  rw [h]
  rfl

/-! ### Claim C9 — root-permutation operator reversal -/

/-- `REVERSE_OPERATOR_MAPPINGS` (collection-query.ts lines 835-846) as
an association list; a JS property access on a missing key yields
`undefined`, modelled as `none`. -/
def REVERSE_OPERATOR_MAPPINGS : List (String × String) :=
  [("=", "="), ("!=", "!="), ("<", ">"), (">", "<"), ("<=", ">="), (">=", "<="),
    ("in", "has"), ("nin", "!has"), ("has", "in"), ("!has", "nin")]

/-- `REVERSE_OPERATOR_MAPPINGS[op]`. -/
def reverseOpLookup (op : String) : Option String :=
  (REVERSE_OPERATOR_MAPPINGS.find? (fun p => p.1 == op)).map (·.2)

/-- Split a character list at the first occurrence of a separator. -/
def splitAtFirstChar (sep : Char) : List Char → Option (List Char × List Char)
  | [] => none
  | c :: cs =>
    if c = sep then some ([], cs)
    else
      match splitAtFirstChar sep cs with
      | some (a, b) => some (c :: a, b)
      | none => none

/-- Modelled from the spec: `getVariableComponents` (`db-helpers.js`, not
under the examined sources) — a variable is `"$<scope>.<path>"`
(spec §4.5). -/
def getVariableComponentsModel (v : String) : Option (String × String) :=
  match v.data with
  | [] => none
  | c :: rest =>
    if c = '$' then
      match splitAtFirstChar '.' rest with
      | some (scope, key) => some (String.mk scope, String.mk key)
      | none => none
    else none

/-- Modelled from the spec: `isValueReferentialVariable`
(`db-helpers.js`) — a variable whose scope is an ancestor-frame number
(spec §4.5, §4.8). -/
def isValueReferentialVariableModel (v : String) : Bool :=
  match getVariableComponentsModel v with
  | some (scope, _) => isNumericScope scope
  | none => false

/-- Modelled from the spec: `createVariable` (`db-helpers.js`) —
reassemble `"$<scope>.<path>"`. -/
def createVariableModel (scope path : String) : String :=
  "$" ++ scope ++ "." ++ path

/-- `reverseRelationFilter` (collection-query.ts lines 847-861): a
non-referential value throws a `TriplitError`; otherwise the reversed
statement is `[key, REVERSE_OPERATOR_MAPPINGS[op], $scope.path]`, whose
operator slot is `undefined` (`none`) whenever `op` is missing from the
mapping — no error is raised for such operators. -/
def reverseRelationFilter (f : String × String × String) :
    Except EngineError (String × Option String × String) :=
  if isValueReferentialVariableModel f.2.2 then
    match getVariableComponentsModel f.2.2 with
    | some (scope, key) =>
      .ok (key, reverseOpLookup f.2.1, createVariableModel scope f.1)
    | none =>
      .error (.triplitErr
        ("Expected filter value to be a relation variable, but got " ++ f.2.2))
  else
    .error (.triplitErr
      ("Expected filter value to be a relation variable, but got " ++ f.2.2))

/-- C9: evaluation at the failing inputs.  Reversing a referential
`like` (or `nlike`, or `isDefined`) filter does not raise any error: the
mapping has no entry for these operators, so the reversed statement is
produced with an `undefined` operator slot instead of a
`ReverseOperatorError`. -/
theorem claim_C9_theorem :
    reverseRelationFilter ("name", "like", "$1.pattern")
        = .ok ("pattern", none, "$1.name")
      ∧ reverseOpLookup "like" = none
      ∧ reverseOpLookup "nlike" = none
      ∧ reverseOpLookup "isDefined" = none
      ∧ reverseRelationFilter ("name", "=", "$1.pattern")
          = .ok ("pattern", some "=", "$1.name") :=
  ⟨rfl, rfl, rfl, rfl, rfl⟩

/-! ### Claim C10 — subscription write handling frame effect -/

/-- One transaction's writes in a `WriteBatch` (spec §6.1). -/
structure StoreOps where
  inserts : List TripleRow
  deletes : List TripleRow

/-- The subscription's maintained state `(results, result triples)`. -/
structure SubscriptionState where
  results : List (String × SEntity)
  resultTriples : List (String × List TripleRow)

/-- Modelled from the spec: `someFilterStatements` (`db-helpers.js`)
applied to `isSubQueryFilter` — whether any where node, descending into
groups, is a subquery filter (spec §4.9). -/
def anySubqueryFilter : List WhereFilter → Bool
  | [] => false
  | .subQuery :: _ => true
  | .group _ fs :: rest => anySubqueryFilter fs || anySubqueryFilter rest
  | _ :: rest => anySubqueryFilter rest

/-- `identifierIncludesRelation` (collection-query.ts lines 471-477):
whether an order identifier crosses a relation in the schema. -/
def identifierIncludesRelationModel (s : SchemaModel) (col : String)
    (identifier : String) : Bool :=
  !(relationsAlongPath s col (splitPath identifier)).isEmpty

/-- The complex-query dispatch of the `onWrite` handler
(collection-query.ts lines 1507-1523): any subquery filter, any include,
or any order key crossing a relation forces a full re-fetch. -/
def isComplexQuery (schema : Option SchemaModel) (q : Query) : Bool :=
  anySubqueryFilter q.whereClauses
    || !q.includeAliases.isEmpty
    || q.order.any fun o =>
        match schema with
        | some s => identifierIncludesRelationModel s q.collectionName o.1
        | none => false

/-- De-duplication with JS `Set` insertion-order semantics. -/
def dedupKeepOrder (l : List String) : List String :=
  l.foldl setAddId []

/-- `updatedEntitiesForQuery` (collection-query.ts lines 1555-1571): the
external ids of the batch's inserted and deleted triples whose
collection part matches the query's collection. -/
def updatedEntitiesForQuery (collectionName : String) (writes : List StoreOps) :
    List String :=
  dedupKeepOrder
    (((((writes.map (·.inserts)).flatten ++ (writes.map (·.deletes)).flatten).map
        (fun t => splitIdParts t.id)).filter
      (fun p => p.1 == collectionName)).map (·.2))

/-- The `onWrite` handler installed by `subscribeResultsAndTriples`
(collection-query.ts lines 1504-1743), reduced to its dispatch
structure: complex queries re-fetch and always emit (the re-fetch result
is the `refetchOracle`); simple queries collect the batch's entity ids
in the query's collection and return early — no state change, no
`onResults` — when there are none (line 1574); otherwise the per-entity
incremental maintenance runs (the `recompute` oracle).  The Bool
reports whether `onResults` is invoked. -/
def onWriteHandler (schema : Option SchemaModel) (q : Query)
    (st : SubscriptionState) (writes : List StoreOps)
    (refetchOracle : Unit → SubscriptionState)
    (recompute : List String → SubscriptionState → SubscriptionState × Bool) :
    SubscriptionState × Bool :=
  if isComplexQuery schema q then (refetchOracle (), true)
  else
    let updated := updatedEntitiesForQuery q.collectionName writes
    if updated.isEmpty then (st, false)
    else recompute updated st

/-- C10: for a simple query (no subquery filter, no include, no order
key crossing a relation), a write batch none of whose inserted or
deleted triples carries an entity id in the query's collection makes the
handler return with the maintained results and triples unchanged and
without invoking `onResults` — whatever the re-fetch and recompute
behaviors are. -/
theorem claim_C10_theorem (schema : Option SchemaModel) (q : Query)
    (st : SubscriptionState) (writes : List StoreOps)
    (refetchOracle : Unit → SubscriptionState)
    (recompute : List String → SubscriptionState → SubscriptionState × Bool)
    (hsimple : isComplexQuery schema q = false)
    (hids : ∀ w ∈ writes,
      (∀ t ∈ w.inserts, (splitIdParts t.id).1 ≠ q.collectionName)
        ∧ (∀ t ∈ w.deletes, (splitIdParts t.id).1 ≠ q.collectionName)) :
    onWriteHandler schema q st writes refetchOracle recompute = (st, false) := by
  unfold onWriteHandler
  rw [hsimple]
  simp only [Bool.false_eq_true, if_false]
  have hupd : updatedEntitiesForQuery q.collectionName writes = [] := by
    unfold updatedEntitiesForQuery
    have hfilter :
        ((((((writes.map (·.inserts)).flatten ++ (writes.map (·.deletes)).flatten)).map
            (fun t => splitIdParts t.id)).filter
          (fun p => p.1 == q.collectionName))) = [] := by
      rw [List.filter_eq_nil_iff]
      intro p hp
      rcases List.mem_map.mp hp with ⟨t, ht, rfl⟩
      rcases List.mem_append.mp ht with hti | htd
      · rcases List.mem_flatten.mp hti with ⟨l, hl, htl⟩
        rcases List.mem_map.mp hl with ⟨w, hw, rfl⟩
        simp only [beq_eq_false_iff_ne, ne_eq, beq_iff_eq]
        exact (hids w hw).1 t htl
      · rcases List.mem_flatten.mp htd with ⟨l, hl, htl⟩
        rcases List.mem_map.mp hl with ⟨w, hw, rfl⟩
        simp only [beq_eq_false_iff_ne, ne_eq, beq_iff_eq]
        exact (hids w hw).2 t htl
    rw [hfilter]
    rfl
  rw [hupd]
  rfl

/-- C10, witness: a simple query over `posts` and a batch writing only
`users` triples, with oracles that would change the state if consulted:
the handler leaves the state untouched and does not fire. -/
theorem claim_C10_witness :
    onWriteHandler none
      { collectionName := "posts"
        whereClauses := [.stmt "rank" ">" (.int 0)]
        order := [("rank", true)]
        after := none
        limit := some 2
        includeAliases := [] }
      ⟨[("1", [("rank", 10)])], []⟩
      [⟨[⟨"users#9", ["name"], .str "x", ⟨3, "a"⟩⟩], []⟩]
      (fun _ => ⟨[], []⟩)
      (fun _ _ => (⟨[], []⟩, true))
      = (⟨[("1", [("rank", 10)])], []⟩, false) :=
  claim_C10_theorem none
    { collectionName := "posts"
      whereClauses := [.stmt "rank" ">" (.int 0)]
      order := [("rank", true)]
      after := none
      limit := some 2
      includeAliases := [] }
    ⟨[("1", [("rank", 10)])], []⟩
    [⟨[⟨"users#9", ["name"], .str "x", ⟨3, "a"⟩⟩], []⟩]
    (fun _ => ⟨[], []⟩)
    (fun _ _ => (⟨[], []⟩, true))
    (by simp [isComplexQuery, anySubqueryFilter, identifierIncludesRelationModel])
    (by
      intro w hw
      constructor
      · intro t ht
        rcases List.mem_singleton.mp hw with rfl
        rcases List.mem_singleton.mp ht with rfl
        decide
      · intro t ht
        rcases List.mem_singleton.mp hw with rfl
        exact absurd ht (List.not_mem_nil _))

end Triplit
